import Mathlib

/-!
Verification of the lesson-enrichment pipeline in `backend/routes/test.js`
(`test()`), against the natural-language specification of the repository.

The pipeline is embedded shallowly:
* JavaScript/JSON values are modelled by the inductive `Json` (numbers as
  `Int`: the only numeric fields the pipeline touches are MCQ answer
  indices; floating-point and NaN behaviour is never relied on).
* The Prisma rows (`Course`, `Module`, `Lesson`, `ContentBlock`,
  `MCQOption`, `VideoSearch`) are Lean structures; a `lesson.update` with
  nested `deleteMany`/`create` becomes a pure function from the old
  `Lesson` to the new one.  The Prisma runtime type checks on `create`
  payloads are not modelled: the store accepts the JavaScript values as
  given (fields of type `Json`).
* The external generative-AI call is an oracle `gen : Nat → Except String
  String` giving the outcome of each attempt; `JSON.parse` is an external
  parameter `parseJSON : String → Option Json` (parse failure = `none`).
* A JavaScript exception thrown inside the reconciliation loop (property
  access on `null`, `.filter` on a non-array) is an `Except.error`; the
  enclosing `try/catch` turns it into an aborted run that keeps the
  lessons already written.  `console` logging is not modelled.
* Field lookup on a JSON object assumes distinct keys (what `JSON.parse`
  produces); accessing a property of a non-object non-null value yields
  `undefined`, modelled as `none`.
-/

namespace AICourse

/-! ### JavaScript string primitives

Modelled over `String.data` with structural recursion (the built-in
`String.trim`, `String.toUpper`, … are kernel-opaque).  ASCII behaviour
coincides with the JavaScript methods; the pipeline only manipulates the
ASCII fence markers and type names. -/

/-- JavaScript `s.startsWith(p)`. -/
def strStartsWith (s p : String) : Bool := p.data.isPrefixOf s.data

/-- JavaScript `s.endsWith(p)`. -/
def strEndsWith (s p : String) : Bool := p.data.reverse.isPrefixOf s.data.reverse

/-- JavaScript `s.slice(n)`: drop the first `n` characters. -/
def strDrop (s : String) (n : Nat) : String := String.mk (s.data.drop n)

/-- Drop the last `n` characters. -/
def strDropRight (s : String) (n : Nat) : String :=
  String.mk ((s.data.reverse.drop n).reverse)

/-- JavaScript `s.trim()`: remove leading and trailing whitespace. -/
def strTrim (s : String) : String :=
  String.mk (((s.data.dropWhile Char.isWhitespace).reverse.dropWhile
    Char.isWhitespace).reverse)

/-- JavaScript `s.toUpperCase()` (ASCII). -/
def strToUpper (s : String) : String := String.mk (s.data.map Char.toUpper)

/-- A JSON / JavaScript value as produced by `JSON.parse`. -/
inductive Json where
  | null : Json
  | bool : Bool → Json
  | num : Int → Json
  | str : String → Json
  | arr : List Json → Json
  | obj : List (String × Json) → Json

/-- First binding of a key in the field list of an object. -/
def lookupField : List (String × Json) → String → Option Json
  | [], _ => none
  | (k, v) :: rest, f => if k == f then some v else lookupField rest f

/-- Property access `j.f` for non-null `j`: a field of an object, `undefined` (= `none`)
on anything else.  (On `null` the real JavaScript throws; callers that can
receive `null` handle that case themselves.) -/
def getField (j : Json) (f : String) : Option Json :=
  match j with
  | .obj fields => lookupField fields f
  | _ => none

/-- JavaScript truthiness of a defined value. -/
def jsTruthy : Json → Bool
  | .null => false
  | .bool b => b
  | .num n => !(n == 0)
  | .str s => !(s == "")
  | .arr _ => true
  | .obj _ => true

/-- Truthiness of a possibly-`undefined` value. -/
def jsTruthyOpt : Option Json → Bool
  | none => false
  | some j => jsTruthy j

/-- JavaScript `x || d` on a possibly-`undefined` `x`. -/
def jsOrDefault (o : Option Json) (d : Json) : Json :=
  match o with
  | some j => if jsTruthy j then j else d
  | none => d

/-- JavaScript `x || null` (used for the `text` and `language` columns). -/
def jsOrNull (o : Option Json) : Json := jsOrDefault o Json.null

/-- A field passed straight into a Prisma `create` payload: `undefined`
means the column is left at its default, i.e. `NULL`. -/
def jsField (b : Json) (f : String) : Json := (getField b f).getD Json.null

/-- JavaScript `x == null` with loose equality: true exactly on `null`
and `undefined`. -/
def jsEqNull : Option Json → Bool
  | none => true
  | some .null => true
  | some _ => false

/-- JavaScript `Array.isArray x` on a possibly-`undefined` value. -/
def jsIsArray : Option Json → Bool
  | some (.arr _) => true
  | _ => false

/-- Optional indexing `x?.[i]` for a `Nat` index: array element, character of a string,
numeric-string property of an object, otherwise `undefined`. -/
def jsIndex (o : Option Json) (i : Nat) : Option Json :=
  match o with
  | some (.arr xs) => xs[i]?
  | some (.str s) => (s.data[i]?).map (fun c => Json.str (String.singleton c))
  | some (.obj fields) => lookupField fields (toString i)
  | _ => none

/-- Comparison `block.type === t` (no property access on `null` needed by callers:
they only apply this to already-validated blocks). -/
def typeIs (block : Json) (t : String) : Bool :=
  match getField block "type" with
  | some (.str s) => s == t
  | _ => false

/-- The string content of `block.type` (callers only use it on validated
blocks, whose `type` is one of the three accepted strings). -/
def typeStrOf (block : Json) : String :=
  match getField block "type" with
  | some (.str t) => t
  | _ => ""

/-! ## Persisted entities (schema `20250718...` migration) -/

/-- Row of `MCQOption`, as filled by the nested `create`. -/
structure MCQOption where
  question : Json
  options : Json
  answer : Json
  explanation : Json

/-- Row of `VideoSearch`. -/
structure VideoSearch where
  query : Json

/-- Row of `ContentBlock` (with its owned `MCQOption`, if any). -/
structure ContentBlock where
  order : Nat
  type : String
  text : Json
  language : Json
  videoUrl : Json
  mcq : Option MCQOption

/-- Row of `Lesson` with its owned collections. -/
structure Lesson where
  id : String
  title : String
  objectives : List String
  isEnriched : Bool
  contentBlocks : List ContentBlock
  videos : List VideoSearch

/-- Row of `Module` with its lessons (ordered as fetched). -/
structure Module where
  id : String
  title : String
  lessons : List Lesson

/-- Row of `Course` with its modules (ordered as fetched). -/
structure Course where
  id : String
  title : String
  modules : List Module

/-! ## Retry Controller (`test.js` lines 88–115) -/

/-- Observable events of the retry loop: the numbered generation attempt
(`Attempt ${attempt + 1} to generate content...`) and the blocking
`setTimeout` delay in milliseconds. -/
inductive Ev where
  | callAttempt : Nat → Ev
  | sleepMs : Nat → Ev

/-- Source line 90: `const maxAttempts = 3;` -/
def maxAttempts : Nat := 3

/-- Model of `replace(/^```json/, '')`:
the regex is anchored and matches the literal ` ```json `, so it removes
exactly that 7-character leading occurrence when present. -/
def replaceLeadingFence (s : String) : String :=
  if strStartsWith s "```json" then strDrop s 7 else s

/-- Model of `replace(/```$/, '')`: removes one trailing ` ``` `. -/
def replaceTrailingFence (s : String) : String :=
  if strEndsWith s "```" then strDropRight s 3 else s

/-- Line 103: `output.trim().replace(/^```json/, '').replace(/```$/, '').trim()`
(line 103). -/
def stripOutput (s : String) : String :=
  strTrim (replaceTrailingFence (replaceLeadingFence (strTrim s)))

/-- The `while (attempt < maxAttempts)` loop, with `gen i` the outcome of
the API call made when `attempt = i`.  Returns the emitted events and the
final `output` (`none` = the run returned at `Max attempts reached`).
`fuel` is an upper bound on the remaining iterations; the loop body runs
at most `maxAttempts` times, so `retry` below never exhausts it. -/
def retryAux (gen : Nat → Except String String) : Nat → Nat → List Ev × Option String
  | 0, _ => ([], none)
  | fuel + 1, attempt =>
    if attempt < maxAttempts then
      match gen attempt with
      | .ok response =>
        -- success: strip code-fence markers and `break`
        ([Ev.callAttempt (attempt + 1)], some (stripOutput response))
      | .error _ =>
        -- `attempt++; if (attempt === maxAttempts) return;` then 1s wait
        if attempt + 1 == maxAttempts then
          ([Ev.callAttempt (attempt + 1)], none)
        else
          let rest := retryAux gen fuel (attempt + 1)
          (Ev.callAttempt (attempt + 1) :: Ev.sleepMs 1000 :: rest.1, rest.2)
    else ([], none)

/-- The retry loop entered with `attempt = 0`. -/
def retry (gen : Nat → Except String String) : List Ev × Option String :=
  retryAux gen maxAttempts 0

/-- Number of generation attempts recorded in an event list. -/
def countCalls (evs : List Ev) : Nat :=
  (evs.filter (fun e => match e with | .callAttempt _ => true | _ => false)).length

/-! ## Response Parser/Validator (`test.js` lines 117–146) -/

/-- The filter at line 128 applied to each element of a bare top-level
array: `block.type` combined with an `includes` test against the three lowercase names.
On a `null` element the property access throws (`Except.error`). -/
def flatBlockKeepE (block : Json) : Except String Bool :=
  match block with
  | .null => .error "TypeError: cannot read properties of null"
  | _ =>
    .ok (match getField block "type" with
      | some (.str t) => t == "paragraph" || t == "video" || t == "mcq"
      | _ => false)

/-- JavaScript `Array.prototype.filter` with a predicate that may throw, evaluated
left to right. -/
def filterBlocksE (p : Json → Except String Bool) : List Json → Except String (List Json)
  | [] => .ok []
  | b :: rest =>
    match p b with
    | .error e => .error e
    | .ok keep =>
      match filterBlocksE p rest with
      | .error e => .error e
      | .ok rest' => .ok (if keep then b :: rest' else rest')

/-- The synthetic `{ modules: [ { lessons: [ { content: blocks } ] } ] }`
wrapper built at lines 123–133 for a bare-array response. -/
def syntheticShape (blocks : List Json) : Json :=
  Json.obj [("modules", Json.arr [Json.obj [("lessons",
    Json.arr [Json.obj [("content", Json.arr blocks)]])]])]

/-- Lines 119–140: shape validation/normalization of the parsed value.
`some` is the `enrichedContent` the writer receives, `none` is an aborted
run (wrong shape, or an exception while filtering a bare array; for a
parsed `null` the real code throws on `parsed.modules` and the enclosing
`catch` aborts — same outcome). -/
def parseEnriched (parsed : Json) : Option Json :=
  if !(jsTruthyOpt (getField parsed "modules")) || !(jsIsArray (getField parsed "modules")) then
    match parsed with
    | .arr blocks =>
      match filterBlocksE flatBlockKeepE blocks with
      | .ok kept => some (syntheticShape kept)
      | .error _ => none
    | _ => none
  else
    some parsed

/-! ## Reconciliation Writer (`test.js` lines 150–221) -/

/-- The per-block validation at lines 161–171.  A `null` element throws
on `block.type` (caught by the outer `try`, aborting the run). -/
def validBlockE (block : Json) : Except String Bool :=
  match block with
  | .null => .error "TypeError: cannot read properties of null"
  | _ =>
    .ok (
      match getField block "type" with
      | some (.str t) =>
        if t == "paragraph" || t == "video" || t == "mcq" then
          if t == "mcq" then
            jsTruthyOpt (getField block "question") &&
            jsIsArray (getField block "options") &&
            !(jsEqNull (getField block "answer")) &&
            jsTruthyOpt (getField block "explanation")
          else true
        else false
      | _ => false)

/-- One element of the `contentBlocks.create` payload (lines 185–201). -/
def mkBlock (block : Json) (index : Nat) : ContentBlock :=
  { order := index
    type := strToUpper (typeStrOf block)  -- `block.type.toUpperCase()`
    text := jsOrNull (getField block "text")
    language := jsOrNull (getField block "language")
    videoUrl := if typeIs block "video" then jsField block "text" else Json.null
    mcq :=
      if typeIs block "mcq" then
        some { question := jsField block "question"
               options := jsField block "options"
               answer := jsField block "answer"
               explanation := jsField block "explanation" }
      else none }

/-- Payload `validBlocks.map((block, index) => ...)` starting at `index`. -/
def mkBlocksFrom : Nat → List Json → List ContentBlock
  | _, [] => []
  | i, b :: rest => mkBlock b i :: mkBlocksFrom (i + 1) rest

/-- The `videos.create` payload (lines 205–207). -/
def mkVideos (validBlocks : List Json) : List VideoSearch :=
  (validBlocks.filter (fun b => typeIs b "video")).map (fun v => { query := jsField v "text" })

/-- The single `prisma.lesson.update` at lines 178–210: `deleteMany: {}`
clears the old collections, so the new state is a pure function of the
old scalar row and the valid blocks. -/
def writeLesson (lesson : Lesson) (validBlocks : List Json) : Lesson :=
  { lesson with
    isEnriched := true
    objectives := []
    contentBlocks := mkBlocksFrom 0 validBlocks
    videos := mkVideos validBlocks }

/-- The default of line 153 for a missing AI module at index `i`. -/
def enrichedModuleAt (enrichedContent : Json) (i : Nat) : Json :=
  jsOrDefault (jsIndex (getField enrichedContent "modules") i)
    (Json.obj [("lessons", Json.arr [])])

/-- The default of line 157 for a missing AI lesson at index `j`. -/
def enrichedLessonAt (enrichedModule : Json) (j : Nat) : Json :=
  jsOrDefault (jsIndex (getField enrichedModule "lessons") j)
    (Json.obj [("content", Json.arr [])])

/-- Lines 158–210 for one lesson: filter the content of the AI lesson and
either skip (no valid blocks) or perform the update.  `.error` is a
thrown exception (e.g. a `null` block, or `.filter` on a truthy
non-array `content`). -/
def processLesson (lesson : Lesson) (enrichedLesson : Json) : Except String Lesson :=
  match jsOrDefault (getField enrichedLesson "content") (Json.arr []) with
  | .arr contentBlocks =>
    match filterBlocksE validBlockE contentBlocks with
    | .ok validBlocks =>
      if validBlocks.length == 0 then .ok lesson
      else .ok (writeLesson lesson validBlocks)
    | .error e => .error e
  | _ => .error "TypeError: contentBlocks.filter is not a function"

/-- The inner lesson loop (lines 155–213) over the lessons of one module,
`j` being the current `lessonIndex`.  The `Bool` is `true` when no
exception occurred; on an exception the remaining lessons keep their old
rows (the `catch` at line 216 just logs and returns). -/
def runLessons (lessons : List Lesson) (j : Nat) (enrichedModule : Json) : List Lesson × Bool :=
  match lessons with
  | [] => ([], true)
  | lesson :: rest =>
    match processLesson lesson (enrichedLessonAt enrichedModule j) with
    | .ok lesson' =>
      let r := runLessons rest (j + 1) enrichedModule
      (lesson' :: r.1, r.2)
    | .error _ => (lesson :: rest, false)

/-- The outer module loop (lines 151–214), `i` being `modIndex`. -/
def runModules (modules : List Module) (i : Nat) (enrichedContent : Json) : List Module × Bool :=
  match modules with
  | [] => ([], true)
  | md :: rest =>
    let r := runLessons md.lessons 0 (enrichedModuleAt enrichedContent i)
    if r.2 then
      let rr := runModules rest (i + 1) enrichedContent
      ({ md with lessons := r.1 } :: rr.1, rr.2)
    else ({ md with lessons := r.1 } :: rest, false)

/-- The whole `test()` run.  `course` is the `findUnique` result,
`gen` the per-attempt API outcome, `parseJSON` the external `JSON.parse`.
Returns the final database state and whether the run completed without a
fatal error. -/
def test (course : Option Course) (gen : Nat → Except String String)
    (parseJSON : String → Option Json) : Option Course × Bool :=
  match course with
  | none => (none, false)                       -- `Course not found.`
  | some course =>
    match (retry gen).2 with
    | none => (some course, false)              -- `Max attempts reached.`
    | some output =>
      match parseJSON output with
      | none => (some course, false)            -- `JSON parsing failed`
      | some parsed =>
        match parseEnriched parsed with
        | none => (some course, false)          -- wrong shape
        | some enrichedContent =>
          let r := runModules course.modules 0 enrichedContent
          (some { course with modules := r.1 }, r.2)

/-! ## Concrete sample data -/

/-- A well-formed paragraph block. -/
def pBlock : Json := Json.obj [("type", Json.str "paragraph"), ("text", Json.str "A")]

/-- A well-formed video block. -/
def vBlock : Json := Json.obj [("type", Json.str "video"), ("text", Json.str "intro to sql")]

/-- A well-formed MCQ block (2 options, answer 0). -/
def mBlock : Json := Json.obj [("type", Json.str "mcq"), ("question", Json.str "Q"),
  ("options", Json.arr [Json.str "a", Json.str "b"]), ("answer", Json.num 0),
  ("explanation", Json.str "E")]

/-- A block with a type outside the accepted set. -/
def headingBlock : Json := Json.obj [("type", Json.str "heading"), ("text", Json.str "H")]

/-- An MCQ block whose `explanation` is the empty string: non-null, but
JavaScript-falsy. -/
def c5Block : Json := Json.obj [("type", Json.str "mcq"), ("question", Json.str "Q"),
  ("options", Json.arr [Json.str "a", Json.str "b"]), ("answer", Json.num 0),
  ("explanation", Json.str "")]

/-- An MCQ block with an empty `options` array (passes validation, which
only checks `Array.isArray`). -/
def c7Block : Json := Json.obj [("type", Json.str "mcq"), ("question", Json.str "Q"),
  ("options", Json.arr []), ("answer", Json.num 0), ("explanation", Json.str "E")]

/-- An unenriched lesson row. -/
def lesson0 : Lesson :=
  { id := "l1", title := "L1", objectives := ["keep"], isEnriched := false,
    contentBlocks := [], videos := [] }

/-- An AI lesson whose content holds the three well-formed blocks. -/
def el0 : Json := Json.obj [("content", Json.arr [pBlock, vBlock, mBlock])]

/-- An AI lesson whose only block has an invalid type. -/
def elBad : Json := Json.obj [("content", Json.arr [headingBlock])]

/-- An AI module whose only lesson is `elBad`. -/
def emBad : Json := Json.obj [("lessons", Json.arr [elBad])]

/-- An AI lesson whose only block is the degenerate MCQ `c7Block`. -/
def c7El : Json := Json.obj [("content", Json.arr [c7Block])]

/-- A one-module, one-lesson course row. -/
def course0 : Course :=
  { id := "c1", title := "T",
    modules := [{ id := "m1", title := "M", lessons := [lesson0] }] }

/-- A generator oracle that fails exactly twice, then succeeds. -/
def gen2fail : Nat → Except String String :=
  fun i => if i < 2 then Except.error "network" else Except.ok "out"

/-- A generator oracle that always fails. -/
def genAllFail : Nat → Except String String := fun _ => Except.error "down"

/-- A generator oracle that succeeds immediately. -/
def genOK : Nat → Except String String := fun _ => Except.ok "junk"

/-- An external parse that always fails. -/
def parseNone : String → Option Json := fun _ => none

/-- A parsed object carrying an (empty) `modules` array. -/
def p0 : Json := Json.obj [("modules", Json.arr [])]

/-- Raw model output wrapped in bare (non-`json`-tagged) code fences. -/
def c4Raw : String := "```\n[1]\n```"

/-- The MCQ-invariant check on one `MCQOption` row: non-empty options and
an in-range zero-based `answer` index. -/
def mcqOptionOk (o : MCQOption) : Bool :=
  match o.options with
  | .arr os =>
    !os.isEmpty &&
      (match o.answer with
       | .num a => decide (0 ≤ a) && decide (a < (os.length : Int))
       | _ => false)
  | _ => false

/-- The claimed invariant on a lesson row: every MCQ-typed block owns
exactly one `MCQOption` satisfying `mcqOptionOk`. -/
def lessonMCQInvariant (l : Lesson) : Bool :=
  l.contentBlocks.all (fun cb =>
    if cb.type == "MCQ" then
      (match cb.mcq with | some o => mcqOptionOk o | none => false)
    else true)

/-- An input MCQ block that would actually satisfy the invariant once
persisted: non-empty options array and in-range numeric answer. -/
def goodMCQBlock (b : Json) : Bool :=
  match getField b "options" with
  | some (Json.arr os) =>
    !os.isEmpty &&
      (match getField b "answer" with
       | some (Json.num a) => decide (0 ≤ a) && decide (a < (os.length : Int))
       | _ => false)
  | _ => false

/-- The per-block validation rule as the (amended) specification words
it: `type` one of the three lowercase names and, for `mcq`, a truthy
`question`, an array `options`, a non-null `answer` and a truthy
(non-null and non-empty) `explanation`. -/
def specValidBlock (block : Json) : Bool :=
  (typeIs block "paragraph" || typeIs block "video" || typeIs block "mcq") &&
  (!(typeIs block "mcq") ||
    (jsTruthyOpt (getField block "question") &&
     jsIsArray (getField block "options") &&
     !(jsEqNull (getField block "answer")) &&
     jsTruthyOpt (getField block "explanation")))

/-! ## Helper lemmas -/

/-- Every element surviving an exception-free `filter` satisfies the
predicate. -/
theorem filterBlocksE_ok_mem {p : Json → Except String Bool} :
    ∀ {bs v : List Json}, filterBlocksE p bs = Except.ok v →
      ∀ b ∈ v, p b = Except.ok true := by
  intro bs
  induction bs with
  | nil =>
    intro v hv b hb
    simp [filterBlocksE] at hv
    subst hv
    cases hb
  | cons x rest ih =>
    intro v hv b hb
    simp only [filterBlocksE] at hv
    cases hp : p x with
    | error e => rw [hp] at hv; cases hv
    | ok keep =>
      rw [hp] at hv
      cases hrest : filterBlocksE p rest with
      | error e => rw [hrest] at hv; cases hv
      | ok rest' =>
        rw [hrest] at hv
        cases keep with
        | false =>
          simp at hv
          subst hv
          exact ih hrest b hb
        | true =>
          simp at hv
          subst hv
          rcases List.mem_cons.mp hb with hb | hb
          · subst hb; exact hp
          · exact ih hrest b hb

/-- A block accepted by the validation filter carries a string `type`
equal to one of the three lowercase names. -/
theorem validBlockE_ok_true {b : Json} (h : validBlockE b = Except.ok true) :
    getField b "type" = some (Json.str (typeStrOf b)) ∧
    (typeStrOf b = "paragraph" ∨ typeStrOf b = "video" ∨ typeStrOf b = "mcq") := by
  cases b with
  | null => simp [validBlockE] at h
  | bool x => simp [validBlockE, getField] at h
  | num n => simp [validBlockE, getField] at h
  | str s => simp [validBlockE, getField] at h
  | arr xs => simp [validBlockE, getField] at h
  | obj fields =>
    cases hgf : lookupField fields "type" with
    | none => simp [validBlockE, getField, hgf] at h
    | some j =>
      cases j with
      | str t =>
        by_cases hcond : (t == "paragraph" || t == "video" || t == "mcq") = true
        · refine ⟨?_, ?_⟩
          · simp [getField, typeStrOf, hgf]
          · simp only [typeStrOf, getField, hgf]
            simp only [Bool.or_eq_true, beq_iff_eq] at hcond
            tauto
        · rw [Bool.not_eq_true] at hcond
          simp [validBlockE, getField, hgf, hcond] at h
      | null => simp [validBlockE, getField, hgf] at h
      | bool x => simp [validBlockE, getField, hgf] at h
      | num n => simp [validBlockE, getField, hgf] at h
      | arr xs => simp [validBlockE, getField, hgf] at h
      | obj fs => simp [validBlockE, getField, hgf] at h

/-- Comparison `block.type === t` in terms of the underlying string. -/
theorem typeIs_of_getField {b : Json} {s : String}
    (hgf : getField b "type" = some (Json.str s)) (t : String) :
    typeIs b t = (s == t) := by
  simp [typeIs, hgf]

/-- Creation via `mkBlocksFrom` yields one block per input. -/
theorem mkBlocksFrom_length : ∀ (s : Nat) (v : List Json),
    (mkBlocksFrom s v).length = v.length := by
  intro s v
  induction v generalizing s with
  | nil => rfl
  | cons b rest ih => simp [mkBlocksFrom, ih]

/-- The `k`-th created block comes from the `k`-th valid block, with
`order` index `s + k`. -/
theorem mkBlocksFrom_getElem : ∀ (s k : Nat) (v : List Json),
    (mkBlocksFrom s v)[k]? = (v[k]?).map (fun b => mkBlock b (s + k)) := by
  intro s k v
  induction v generalizing s k with
  | nil => simp [mkBlocksFrom]
  | cons b rest ih =>
    cases k with
    | zero => simp [mkBlocksFrom]
    | succ k =>
      simp only [mkBlocksFrom, List.getElem?_cons_succ, ih (s + 1) k]
      have : s + 1 + k = s + (k + 1) := by omega
      rw [this]

/-- A successful write, spelled out: the `update` replaces the old
children with functions of the valid blocks alone. -/
theorem processLesson_write {lesson : Lesson} {el : Json} {blocks valid : List Json}
    (hc : jsOrDefault (getField el "content") (Json.arr []) = Json.arr blocks)
    (hf : filterBlocksE validBlockE blocks = Except.ok valid)
    (hne : valid ≠ []) :
    processLesson lesson el = Except.ok (writeLesson lesson valid) := by
  have hlen : (valid.length == 0) = false := by
    simpa [List.length_eq_zero] using hne
  simp [processLesson, hc, hf, hlen]

/-- The lesson loop never changes the number of lesson rows. -/
theorem runLessons_length : ∀ (ls : List Lesson) (j : Nat) (em : Json),
    (runLessons ls j em).1.length = ls.length := by
  intro ls
  induction ls with
  | nil => intro j em; rfl
  | cons l rest ih =>
    intro j em
    simp only [runLessons]
    cases hp : processLesson l (enrichedLessonAt em j) with
    | ok l' => simp [ih (j + 1) em]
    | error e => simp

/-- The module loop never changes the number of module rows. -/
theorem runModules_length : ∀ (mods : List Module) (i : Nat) (ec : Json),
    (runModules mods i ec).1.length = mods.length := by
  intro mods
  induction mods with
  | nil => intro i ec; rfl
  | cons md rest ih =>
    intro i ec
    simp only [runModules]
    cases hr : (runLessons md.lessons 0 (enrichedModuleAt ec i)).2 with
    | true => simp [hr, ih (i + 1) ec]
    | false => simp [hr]

/-- In a run with no exception, the `k`-th lesson row is exactly the
result of processing the old `k`-th row against the AI lesson at the same
position. -/
theorem runLessons_ok_getElem : ∀ (ls : List Lesson) (j : Nat) (em : Json),
    (runLessons ls j em).2 = true →
    ∀ k, (runLessons ls j em).1[k]? =
      (ls[k]?).bind (fun l => (processLesson l (enrichedLessonAt em (j + k))).toOption) := by
  intro ls
  induction ls with
  | nil => intro j em _ k; simp [runLessons]
  | cons l rest ih =>
    intro j em hok k
    simp only [runLessons] at hok ⊢
    cases hp : processLesson l (enrichedLessonAt em j) with
    | error e => rw [hp] at hok; simp at hok
    | ok l' =>
      rw [hp] at hok
      simp only at hok
      cases k with
      | zero => simp [hp, Except.toOption]
      | succ k =>
        simp only [List.getElem?_cons_succ]
        have := ih (j + 1) em hok k
        simp only [this]
        have harith : j + 1 + k = j + (k + 1) := by omega
        rw [harith]

/-- In a run with no exception, the `k`-th module row is the old `k`-th
row with its lessons processed against the AI module at the same
position. -/
theorem runModules_ok_getElem : ∀ (mods : List Module) (i : Nat) (ec : Json),
    (runModules mods i ec).2 = true →
    ∀ k, (runModules mods i ec).1[k]? =
      (mods[k]?).map (fun md : Module =>
        { md with lessons := (runLessons md.lessons 0 (enrichedModuleAt ec (i + k))).1 }) := by
  intro mods
  induction mods with
  | nil => intro i ec _ k; simp [runModules]
  | cons md rest ih =>
    intro i ec hok k
    simp only [runModules] at hok ⊢
    cases hr : (runLessons md.lessons 0 (enrichedModuleAt ec i)).2 with
    | false => rw [hr] at hok; simp at hok
    | true =>
      rw [hr] at hok
      simp only [if_true] at hok ⊢
      cases k with
      | zero => simp
      | succ k =>
        simp only [List.getElem?_cons_succ]
        have := ih (i + 1) ec hok k
        simp only [this]
        have harith : i + 1 + k = i + (k + 1) := by omega
        rw [harith]

/-- Indexing an array past its end gives `undefined`. -/
theorem jsIndex_arr_ge {ms : List Json} {idx : Nat} (h : ms.length ≤ idx) :
    jsIndex (some (Json.arr ms)) idx = none := by
  simp [jsIndex, List.getElem?_eq_none h]

/-- When the AI output has no module at position `idx`, the line-153
default kicks in. -/
theorem enrichedModuleAt_missing {ec : Json} {ms : List Json} {idx : Nat}
    (hms : getField ec "modules" = some (Json.arr ms)) (h : ms.length ≤ idx) :
    enrichedModuleAt ec idx = Json.obj [("lessons", Json.arr [])] := by
  simp [enrichedModuleAt, hms, jsIndex, List.getElem?_eq_none h, jsOrDefault]

/-- When the AI module has no lesson at position `j`, the line-157
default kicks in. -/
theorem enrichedLessonAt_missing {em : Json} {ls : List Json} {j : Nat}
    (hls : getField em "lessons" = some (Json.arr ls)) (h : ls.length ≤ j) :
    enrichedLessonAt em j = Json.obj [("content", Json.arr [])] := by
  simp [enrichedLessonAt, hls, jsIndex, List.getElem?_eq_none h, jsOrDefault]

/-- Processing a lesson against the empty default content set writes
nothing and succeeds. -/
theorem processLesson_empty (l : Lesson) :
    processLesson l (Json.obj [("content", Json.arr [])]) = Except.ok l := rfl

/-- A whole module processed against the empty default AI module leaves
every lesson untouched and raises no error. -/
theorem runLessons_emptyModule : ∀ (ls : List Lesson) (j : Nat),
    runLessons ls j (Json.obj [("lessons", Json.arr [])]) = (ls, true) := by
  intro ls
  induction ls with
  | nil => intro j; rfl
  | cons l rest ih =>
    intro j
    have hel : enrichedLessonAt (Json.obj [("lessons", Json.arr [])]) j =
        Json.obj [("content", Json.arr [])] := by
      simp [enrichedLessonAt, getField, lookupField, jsIndex, jsOrDefault]
    simp [runLessons, hel, processLesson_empty, ih (j + 1)]

/-- A block whose `type` equals `s` does not have type `t ≠ s`. -/
theorem typeIs_false_of_true {b : Json} {s t : String}
    (h : typeIs b s = true) (hst : s ≠ t) : typeIs b t = false := by
  unfold typeIs at h ⊢
  cases hgf : getField b "type" with
  | none => simp [hgf] at h
  | some j =>
    cases j with
    | str u =>
      simp [hgf, beq_iff_eq] at h
      subst h
      simp [hgf, beq_eq_false_iff_ne]
      exact hst
    | null => simp [hgf] at h
    | bool x => simp [hgf] at h
    | num n => simp [hgf] at h
    | arr xs => simp [hgf] at h
    | obj fs => simp [hgf] at h

/-! ## Claims -/

/-- C1: for every lesson whose filtered content has at least one valid
block, the Reconciliation Writer performs one update that sets
`isEnriched = true`, replaces `objectives` with the empty list, replaces
the existing ContentBlocks and VideoSearch rows wholesale, creates
exactly one ContentBlock per valid block with `order` equal to its index
in the valid-block array (an owned MCQOption exactly when the type of
the block is `mcq`), and creates exactly one VideoSearch per video-type
block whose `query` equals the text of that block. -/
theorem c1_reconciliation_write :
    ∀ (lesson : Lesson) (el : Json) (blocks valid : List Json),
      jsOrDefault (getField el "content") (Json.arr []) = Json.arr blocks →
      filterBlocksE validBlockE blocks = Except.ok valid →
      valid ≠ [] →
      processLesson lesson el = Except.ok (writeLesson lesson valid) ∧
      (writeLesson lesson valid).isEnriched = true ∧
      (writeLesson lesson valid).objectives = [] ∧
      (writeLesson lesson valid).contentBlocks.length = valid.length ∧
      (∀ k, (writeLesson lesson valid).contentBlocks[k]? =
        (valid[k]?).map (fun b => mkBlock b k)) ∧
      (∀ (b : Json) (i : Nat), (mkBlock b i).order = i ∧
        (mkBlock b i).mcq.isSome = typeIs b "mcq") ∧
      (writeLesson lesson valid).videos =
        (valid.filter (fun b => typeIs b "video")).map
          (fun v => { query := jsField v "text" }) := by
  intro lesson el blocks valid hc hf hne
  refine ⟨processLesson_write hc hf hne, rfl, rfl, ?_, ?_, ?_, rfl⟩
  · simpa [writeLesson] using mkBlocksFrom_length 0 valid
  · intro k
    simpa [writeLesson] using mkBlocksFrom_getElem 0 k valid
  · intro b i
    refine ⟨rfl, ?_⟩
    cases h : typeIs b "mcq" <;> simp [mkBlock, h]

/-- Witness for C1 at the three-block sample lesson. -/
theorem c1_reconciliation_write_witness :
    processLesson lesson0 el0 = Except.ok (writeLesson lesson0 [pBlock, vBlock, mBlock]) ∧
    (writeLesson lesson0 [pBlock, vBlock, mBlock]).contentBlocks.length = 3 := by
  have h := c1_reconciliation_write lesson0 el0 [pBlock, vBlock, mBlock]
    [pBlock, vBlock, mBlock] rfl rfl (by simp)
  exact ⟨h.1, h.2.2.2.1⟩

/-- C6: re-running enrichment for a lesson with the same valid AI output
is idempotent — a second run reproduces the same row — and the written
children are wholesale functions of the valid blocks, independent of
whatever blocks and videos the lesson held before. -/
theorem c6_idempotent :
    (∀ (l l' : Lesson) (el : Json),
      processLesson l el = Except.ok l' → processLesson l' el = Except.ok l') ∧
    (∀ (l₁ l₂ : Lesson) (valid : List Json),
      (writeLesson l₁ valid).contentBlocks = (writeLesson l₂ valid).contentBlocks ∧
      (writeLesson l₁ valid).videos = (writeLesson l₂ valid).videos) := by
  refine ⟨?_, fun l₁ l₂ valid => ⟨rfl, rfl⟩⟩
  intro l l' el h
  cases hc : jsOrDefault (getField el "content") (Json.arr []) with
  | arr blocks =>
    cases hf : filterBlocksE validBlockE blocks with
    | error e => simp [processLesson, hc, hf] at h
    | ok valid =>
      cases hlen : (valid.length == 0) with
      | true =>
        simp [processLesson, hc, hf, hlen] at h
        simp [processLesson, hc, hf, hlen, h]
      | false =>
        simp [processLesson, hc, hf, hlen] at h
        subst h
        simp [processLesson, hc, hf, hlen]
        rfl
  | null => simp [processLesson, hc] at h
  | bool x => simp [processLesson, hc] at h
  | num n => simp [processLesson, hc] at h
  | str s => simp [processLesson, hc] at h
  | obj fs => simp [processLesson, hc] at h

/-- Witness for C6: re-processing the already-enriched sample lesson
against the same AI output returns it unchanged. -/
theorem c6_idempotent_witness :
    processLesson (writeLesson lesson0 [pBlock, vBlock, mBlock]) el0 =
      Except.ok (writeLesson lesson0 [pBlock, vBlock, mBlock]) :=
  c6_idempotent.1 lesson0 (writeLesson lesson0 [pBlock, vBlock, mBlock]) el0 rfl

/-- C8: a lesson whose content filters down to zero valid blocks is not
written at all — the row (flag, objectives, blocks, videos) is returned
unchanged — and the loop moves on to the next lesson instead of
aborting. -/
theorem c8_skip_empty :
    ∀ (lesson : Lesson) (el : Json) (blocks : List Json),
      jsOrDefault (getField el "content") (Json.arr []) = Json.arr blocks →
      filterBlocksE validBlockE blocks = Except.ok [] →
      processLesson lesson el = Except.ok lesson ∧
      ∀ (rest : List Lesson) (j : Nat) (em : Json),
        enrichedLessonAt em j = el →
        runLessons (lesson :: rest) j em =
          (lesson :: (runLessons rest (j + 1) em).1, (runLessons rest (j + 1) em).2) := by
  intro lesson el blocks hc hf
  have hskip : processLesson lesson el = Except.ok lesson := by
    simp [processLesson, hc, hf]
  refine ⟨hskip, ?_⟩
  intro rest j em hel
  simp [runLessons, hel, hskip]

/-- Witness for C8 at a lesson whose only AI block has an invalid type. -/
theorem c8_skip_empty_witness :
    processLesson lesson0 elBad = Except.ok lesson0 ∧
    runLessons [lesson0] 0 emBad = ([lesson0], true) := by
  have h := c8_skip_empty lesson0 elBad [headingBlock] rfl rfl
  refine ⟨h.1, ?_⟩
  have h2 := h.2 [] 0 emBad rfl
  simpa [runLessons] using h2

/-- C9: the `videoUrl` of a created block equals its `text` exactly for
video-type blocks (the same value the VideoSearch row carries as
`query`), and `null` for paragraph and mcq blocks. -/
theorem c9_videoUrl :
    (∀ (block : Json) (i : Nat), typeIs block "video" = true →
      (mkBlock block i).videoUrl = jsField block "text") ∧
    (∀ (block : Json) (i : Nat),
      typeIs block "paragraph" = true ∨ typeIs block "mcq" = true →
      (mkBlock block i).videoUrl = Json.null) ∧
    (∀ (lesson : Lesson) (valid : List Json),
      (writeLesson lesson valid).videos =
        (valid.filter (fun b => typeIs b "video")).map
          (fun v => { query := jsField v "text" })) := by
  refine ⟨?_, ?_, fun lesson valid => rfl⟩
  · intro block i h
    simp [mkBlock, h]
  · intro block i h
    rcases h with h | h
    · have hv : typeIs block "video" = false :=
        typeIs_false_of_true h (by decide : "paragraph" ≠ "video")
      simp [mkBlock, hv]
    · have hv : typeIs block "video" = false :=
        typeIs_false_of_true h (by decide : "mcq" ≠ "video")
      simp [mkBlock, hv]

/-- Witness for C9 at the sample video and paragraph blocks. -/
theorem c9_videoUrl_witness :
    (mkBlock vBlock 1).videoUrl = jsField vBlock "text" ∧
    (mkBlock pBlock 0).videoUrl = Json.null :=
  ⟨c9_videoUrl.1 vBlock 1 rfl, c9_videoUrl.2.1 pBlock 0 (Or.inl rfl)⟩

/-- C10: type matching is case-sensitive on the lowercase names — an
uppercase or mixed-case variant is rejected by validation — and every
accepted block is persisted with its type uppercased to one of
PARAGRAPH, VIDEO, MCQ. -/
theorem c10_case_sensitive :
    validBlockE (Json.obj [("type", Json.str "PARAGRAPH"), ("text", Json.str "A")]) =
      Except.ok false ∧
    validBlockE (Json.obj [("type", Json.str "Mcq"), ("question", Json.str "Q"),
      ("options", Json.arr [Json.str "a"]), ("answer", Json.num 0),
      ("explanation", Json.str "E")]) = Except.ok false ∧
    ∀ (block : Json), validBlockE block = Except.ok true →
      (typeStrOf block = "paragraph" ∨ typeStrOf block = "video" ∨
        typeStrOf block = "mcq") ∧
      ∀ i, (mkBlock block i).type = strToUpper (typeStrOf block) ∧
        ((mkBlock block i).type = "PARAGRAPH" ∨ (mkBlock block i).type = "VIDEO" ∨
          (mkBlock block i).type = "MCQ") := by
  refine ⟨rfl, rfl, ?_⟩
  intro block h
  obtain ⟨hgf, htype⟩ := validBlockE_ok_true h
  refine ⟨htype, fun i => ⟨rfl, ?_⟩⟩
  have hmk : (mkBlock block i).type = strToUpper (typeStrOf block) := rfl
  rcases htype with ht | ht | ht
  · exact Or.inl (by rw [hmk, ht]; decide)
  · exact Or.inr (Or.inl (by rw [hmk, ht]; decide))
  · exact Or.inr (Or.inr (by rw [hmk, ht]; decide))

/-- Witness for C10 at the sample MCQ block. -/
theorem c10_case_sensitive_witness :
    (mkBlock mBlock 2).type = "PARAGRAPH" ∨ (mkBlock mBlock 2).type = "VIDEO" ∨
      (mkBlock mBlock 2).type = "MCQ" :=
  ((c10_case_sensitive.2.2 mBlock rfl).2 2).2

/-- On non-null blocks, the source validation filter computes exactly
the spec-level predicate `specValidBlock`. -/
theorem validBlockE_eq_spec {block : Json} (hnull : block ≠ Json.null) :
    validBlockE block = Except.ok (specValidBlock block) := by
  cases block with
  | null => exact absurd rfl hnull
  | bool x => rfl
  | num n => rfl
  | str s => rfl
  | arr xs => rfl
  | obj fields =>
    cases hgf : lookupField fields "type" with
    | none => simp [validBlockE, specValidBlock, typeIs, getField, hgf]
    | some j =>
      cases j with
      | str t =>
        simp only [validBlockE, specValidBlock, typeIs, getField, hgf]
        cases hp : (t == "paragraph") <;> cases hv : (t == "video") <;>
          cases hm : (t == "mcq") <;> simp [hp, hv, hm]
      | null => simp [validBlockE, specValidBlock, typeIs, getField, hgf]
      | bool x => simp [validBlockE, specValidBlock, typeIs, getField, hgf]
      | num n => simp [validBlockE, specValidBlock, typeIs, getField, hgf]
      | arr xs => simp [validBlockE, specValidBlock, typeIs, getField, hgf]
      | obj fs => simp [validBlockE, specValidBlock, typeIs, getField, hgf]

/-- Lifting `validBlockE_eq_spec` through the filter. -/
theorem filterBlocksE_eq_spec : ∀ (blocks : List Json),
    (∀ b ∈ blocks, b ≠ Json.null) →
    filterBlocksE validBlockE blocks = Except.ok (blocks.filter specValidBlock) := by
  intro blocks
  induction blocks with
  | nil => intro _; rfl
  | cons b rest ih =>
    intro h
    have hb := h b (List.mem_cons_self b rest)
    have hrest := ih (fun x hx => h x (List.mem_cons_of_mem b hx))
    simp only [filterBlocksE, validBlockE_eq_spec hb, hrest, List.filter_cons]

/-- C5 counterexample: `c5Block` is an mcq block with a non-empty
question, an array options field, a non-null answer and a NON-NULL
(empty-string) explanation, yet validation drops it: the source tests
`!block.explanation`, which rejects every falsy value, not only
null/undefined. -/
theorem c5_validation_cex :
    validBlockE c5Block = Except.ok false ∧
    typeIs c5Block "mcq" = true ∧
    jsTruthyOpt (getField c5Block "question") = true ∧
    jsIsArray (getField c5Block "options") = true ∧
    jsEqNull (getField c5Block "answer") = false ∧
    getField c5Block "explanation" = some (Json.str "") ∧
    jsEqNull (getField c5Block "explanation") = false :=
  ⟨rfl, rfl, rfl, rfl, rfl, rfl, rfl⟩

/-- C5 (amended): a non-null block is kept iff its type is one of
paragraph/video/mcq and, for mcq, it has a truthy (non-empty) question,
an array options field, a non-null answer and a TRUTHY (non-null and
non-empty) explanation; failing blocks are merely dropped — filtering
returns normally for any block list without null elements. -/
theorem c5_validation_amended :
    (∀ (block : Json), block ≠ Json.null →
      validBlockE block = Except.ok (specValidBlock block)) ∧
    (∀ (blocks : List Json), (∀ b ∈ blocks, b ≠ Json.null) →
      filterBlocksE validBlockE blocks = Except.ok (blocks.filter specValidBlock)) :=
  ⟨fun _ h => validBlockE_eq_spec h, filterBlocksE_eq_spec⟩

/-- Witness for C5 (amended): the degenerate `c5Block` is filtered out
while the well-formed `mBlock` is kept. -/
theorem c5_validation_amended_witness :
    validBlockE mBlock = Except.ok (specValidBlock mBlock) ∧
    filterBlocksE validBlockE [c5Block, mBlock] =
      Except.ok ([c5Block, mBlock].filter specValidBlock) := by
  refine ⟨c5_validation_amended.1 mBlock ?_, c5_validation_amended.2 [c5Block, mBlock] ?_⟩
  · simp [mBlock]
  · intro b hb
    rcases List.mem_cons.mp hb with h | hb
    · subst h; simp [c5Block]
    · rcases List.mem_cons.mp hb with h | hb
      · subst h; simp [mBlock]
      · cases hb

/-- Every created block originates from some input block. -/
theorem mem_mkBlocksFrom : ∀ {s : Nat} {v : List Json} {cb : ContentBlock},
    cb ∈ mkBlocksFrom s v → ∃ b ∈ v, ∃ i, cb = mkBlock b i := by
  intro s v
  induction v generalizing s with
  | nil => intro cb hcb; cases hcb
  | cons b rest ih =>
    intro cb hcb
    rcases List.mem_cons.mp hcb with h | h
    · exact ⟨b, List.mem_cons_self b rest, s, h⟩
    · obtain ⟨b', hb', i, hi⟩ := ih h
      exact ⟨b', List.mem_cons_of_mem b hb', i, hi⟩

/-- The persisted MCQOption payload is well-formed exactly when the
source block is. -/
theorem mcqOptionOk_getD (b : Json) :
    mcqOptionOk { question := jsField b "question",
                  options := jsField b "options",
                  answer := jsField b "answer",
                  explanation := jsField b "explanation" } =
    goodMCQBlock b := by
  simp only [mcqOptionOk, goodMCQBlock, jsField]
  cases hgo : getField b "options" with
  | none => rfl
  | some j =>
    cases j with
    | arr os =>
      cases hga : getField b "answer" with
      | none => rfl
      | some a => cases a <;> rfl
    | null => rfl
    | bool x => rfl
    | num n => rfl
    | str s => rfl
    | obj fs => rfl

/-- C7 counterexample: the degenerate `c7Block` (empty options array,
answer 0) passes validation, so the write enriches the lesson with one
MCQ-typed ContentBlock whose MCQOption has an empty options list — the
claimed invariant is false after this write. -/
theorem c7_mcq_invariant_cex :
    (processLesson lesson0 c7El).map lessonMCQInvariant = Except.ok false ∧
    (processLesson lesson0 c7El).map (fun l => l.isEnriched) = Except.ok true ∧
    (processLesson lesson0 c7El).map (fun l => l.contentBlocks.length) = Except.ok 1 ∧
    validBlockE c7Block = Except.ok true :=
  ⟨rfl, rfl, rfl, rfl⟩

/-- C7 (amended): after an enrichment write a persisted block is
MCQ-typed iff it owns exactly one MCQOption; but validation only checks
`Array.isArray(options)` and `answer != null`, so the non-empty-options /
in-range-answer half of the invariant holds exactly when every valid mcq
input block already satisfies it (`goodMCQBlock`). -/
theorem c7_mcq_invariant_amended :
    ∀ (lesson : Lesson) (el : Json) (blocks valid : List Json),
      jsOrDefault (getField el "content") (Json.arr []) = Json.arr blocks →
      filterBlocksE validBlockE blocks = Except.ok valid →
      valid ≠ [] →
      processLesson lesson el = Except.ok (writeLesson lesson valid) ∧
      (∀ cb ∈ (writeLesson lesson valid).contentBlocks,
        (cb.type = "MCQ" ↔ cb.mcq.isSome = true)) ∧
      ((∀ b ∈ valid, typeIs b "mcq" = true → goodMCQBlock b = true) →
        lessonMCQInvariant (writeLesson lesson valid) = true) := by
  intro lesson el blocks valid hc hf hne
  refine ⟨processLesson_write hc hf hne, ?_, ?_⟩
  · intro cb hcb
    obtain ⟨b, hbv, i, rfl⟩ := mem_mkBlocksFrom hcb
    have hv := filterBlocksE_ok_mem hf b hbv
    obtain ⟨hgf, ht⟩ := validBlockE_ok_true hv
    have htype : (mkBlock b i).type = strToUpper (typeStrOf b) := rfl
    have hmcqIs := typeIs_of_getField hgf "mcq"
    rcases ht with ht | ht | ht
    · have hm : typeIs b "mcq" = false := by rw [hmcqIs, ht]; decide
      have h1 : (mkBlock b i).type = strToUpper "paragraph" := by rw [htype, ht]
      have h2 : (mkBlock b i).mcq = none := by simp [mkBlock, hm]
      rw [h1, h2]
      decide
    · have hm : typeIs b "mcq" = false := by rw [hmcqIs, ht]; decide
      have h1 : (mkBlock b i).type = strToUpper "video" := by rw [htype, ht]
      have h2 : (mkBlock b i).mcq = none := by simp [mkBlock, hm]
      rw [h1, h2]
      decide
    · have hm : typeIs b "mcq" = true := by rw [hmcqIs, ht]; decide
      have h1 : (mkBlock b i).type = "MCQ" := by rw [htype, ht]; decide
      have h2 : (mkBlock b i).mcq.isSome = true := by simp [mkBlock, hm]
      simp [h1, h2]
  · intro hgood
    have hmem : ∀ cb ∈ mkBlocksFrom 0 valid,
        (if cb.type == "MCQ" then
          (match cb.mcq with | some o => mcqOptionOk o | none => false)
        else true) = true := by
      intro cb hcb
      obtain ⟨b, hbv, i, rfl⟩ := mem_mkBlocksFrom hcb
      have hv := filterBlocksE_ok_mem hf b hbv
      obtain ⟨hgf, ht⟩ := validBlockE_ok_true hv
      have htype : (mkBlock b i).type = strToUpper (typeStrOf b) := rfl
      have hmcqIs := typeIs_of_getField hgf "mcq"
      rcases ht with ht | ht | ht
      · have hcond : ((mkBlock b i).type == "MCQ") = false := by
          rw [htype, ht]; decide
        simp [hcond]
      · have hcond : ((mkBlock b i).type == "MCQ") = false := by
          rw [htype, ht]; decide
        simp [hcond]
      · have hm : typeIs b "mcq" = true := by rw [hmcqIs, ht]; decide
        have hopt : (mkBlock b i).mcq =
            some { question := jsField b "question",
                   options := jsField b "options",
                   answer := jsField b "answer",
                   explanation := jsField b "explanation" } := by
          simp [mkBlock, hm]
        cases hcond : ((mkBlock b i).type == "MCQ") with
        | false => simp [hcond]
        | true => simp [hcond, hopt, mcqOptionOk_getD, hgood b hbv hm]
    have hall : (mkBlocksFrom 0 valid).all (fun cb =>
        if cb.type == "MCQ" then
          (match cb.mcq with | some o => mcqOptionOk o | none => false)
        else true) = true := List.all_eq_true.mpr hmem
    exact hall

/-- Witness for C7 (amended): with the well-formed sample blocks the
invariant does hold after the write. -/
theorem c7_mcq_invariant_amended_witness :
    lessonMCQInvariant (writeLesson lesson0 [pBlock, vBlock, mBlock]) = true := by
  have h := c7_mcq_invariant_amended lesson0 el0 [pBlock, vBlock, mBlock]
    [pBlock, vBlock, mBlock] rfl rfl (by simp)
  refine h.2.2 ?_
  intro b hb
  simp only [List.mem_cons, List.mem_singleton] at hb
  rcases hb with rfl | rfl | hb
  · intro hm; exact absurd hm (by decide)
  · intro hm; exact absurd hm (by decide)
  · rcases hb with rfl | hb
    · intro _; decide
    · cases hb

/-- C4 counterexample: `c4Raw` is wrapped in bare (non-`json`-tagged)
code fences; the stripping step removes only a leading ` ```json `
marker, so the leading fence survives and the output is not the fenced
body — the claimed unconditional leading-fence stripping is false. -/
theorem c4_fence_cex :
    strStartsWith (strTrim c4Raw) "```" = true ∧
    stripOutput c4Raw = "```\n[1]" ∧
    strStartsWith (stripOutput c4Raw) "```" = true ∧
    stripOutput c4Raw ≠ "[1]" := by
  refine ⟨rfl, rfl, rfl, ?_⟩
  decide

/-- C4 (amended): the parser trims, strips a leading ` ```json ` marker
(a bare leading ` ``` ` fence is left in place) and one trailing ` ``` `
fence, and parses the result as JSON; a parsed value with a `modules`
array is used as-is; a parsed bare array is filtered to block-typed
elements and wrapped into the synthetic one-lesson shape; any other
parsed shape, or a parse failure, aborts the run with the database
untouched. -/
theorem c4_parse_normalize :
    stripOutput " ```json\n[1]\n``` " = "[1]" ∧
    stripOutput "  [1]  " = "[1]" ∧
    stripOutput "```\n[1]\n```" = "```\n[1]" ∧
    (∀ (p : Json) (ms : List Json), getField p "modules" = some (Json.arr ms) →
      parseEnriched p = some p) ∧
    (∀ (bs kept : List Json), filterBlocksE flatBlockKeepE bs = Except.ok kept →
      parseEnriched (Json.arr bs) = some (syntheticShape kept)) ∧
    (∀ (p : Json), jsIsArray (getField p "modules") = false →
      (∀ bs, p ≠ Json.arr bs) → parseEnriched p = none) ∧
    (∀ (course : Course) (gen : Nat → Except String String)
        (parseJSON : String → Option Json) (out : String),
      (retry gen).2 = some out → parseJSON out = none →
      test (some course) gen parseJSON = (some course, false)) ∧
    (∀ (course : Course) (gen : Nat → Except String String)
        (parseJSON : String → Option Json) (out : String) (p : Json),
      (retry gen).2 = some out → parseJSON out = some p → parseEnriched p = none →
      test (some course) gen parseJSON = (some course, false)) := by
  refine ⟨rfl, rfl, rfl, ?_, ?_, ?_, ?_, ?_⟩
  · intro p ms hmod
    simp [parseEnriched, hmod, jsTruthyOpt, jsTruthy, jsIsArray]
  · intro bs kept hfil
    simp [parseEnriched, getField, jsTruthyOpt, jsIsArray, hfil]
  · intro p hna hnarr
    cases p with
    | arr bs => exact absurd rfl (hnarr bs)
    | null => simp [parseEnriched, getField, jsTruthyOpt, jsIsArray]
    | bool x => simp [parseEnriched, getField, jsTruthyOpt, jsIsArray]
    | num n => simp [parseEnriched, getField, jsTruthyOpt, jsIsArray]
    | str s => simp [parseEnriched, getField, jsTruthyOpt, jsIsArray]
    | obj fields =>
      simp only [parseEnriched, hna, Bool.not_false, Bool.or_true, Bool.not_eq_true]
      simp
  · intro course gen parseJSON out hout hp
    simp [test, hout, hp]
  · intro course gen parseJSON out p hout hp hpe
    simp [test, hout, hp, hpe]

/-- Witness for C4 (amended): a `modules` object passes through, a bare
array is wrapped, and an unparseable output aborts with the sample
course unchanged. -/
theorem c4_parse_normalize_witness :
    parseEnriched p0 = some p0 ∧
    parseEnriched (Json.arr [pBlock]) = some (syntheticShape [pBlock]) ∧
    test (some course0) genOK parseNone = (some course0, false) := by
  obtain ⟨-, -, -, h4, h5, -, h7, -⟩ := c4_parse_normalize
  exact ⟨h4 p0 [] rfl, h5 [pBlock] [pBlock] rfl, h7 course0 genOK parseNone "junk" rfl rfl⟩

/-- C2: the generation call is attempted at most 3 times; a success exits
the loop immediately with the (fence-stripped) output of that attempt; a
1000 ms blocking delay separates consecutive failed attempts; and when
all three attempts fail the run aborts with the database untouched. -/
theorem c2_retry_bound :
    ∀ (gen : Nat → Except String String),
      countCalls (retry gen).1 ≤ maxAttempts ∧
      (∀ s, gen 0 = Except.ok s →
        retry gen = ([Ev.callAttempt 1], some (stripOutput s))) ∧
      (∀ e₀ s, gen 0 = Except.error e₀ → gen 1 = Except.ok s →
        retry gen = ([Ev.callAttempt 1, Ev.sleepMs 1000, Ev.callAttempt 2],
          some (stripOutput s))) ∧
      (∀ e₀ e₁ s, gen 0 = Except.error e₀ → gen 1 = Except.error e₁ →
          gen 2 = Except.ok s →
        retry gen = ([Ev.callAttempt 1, Ev.sleepMs 1000, Ev.callAttempt 2,
          Ev.sleepMs 1000, Ev.callAttempt 3], some (stripOutput s))) ∧
      (∀ e₀ e₁ e₂, gen 0 = Except.error e₀ → gen 1 = Except.error e₁ →
          gen 2 = Except.error e₂ →
        retry gen = ([Ev.callAttempt 1, Ev.sleepMs 1000, Ev.callAttempt 2,
          Ev.sleepMs 1000, Ev.callAttempt 3], none) ∧
        ∀ (course : Course) (parseJSON : String → Option Json),
          test (some course) gen parseJSON = (some course, false)) := by
  intro gen
  have hcount : countCalls (retry gen).1 ≤ maxAttempts := by
    cases h0 : gen 0 with
    | ok s => simp [retry, retryAux, maxAttempts, h0, countCalls]
    | error e0 =>
      cases h1 : gen 1 with
      | ok s => simp [retry, retryAux, maxAttempts, h0, h1, countCalls]
      | error e1 =>
        cases h2 : gen 2 with
        | ok s => simp [retry, retryAux, maxAttempts, h0, h1, h2, countCalls]
        | error e2 => simp [retry, retryAux, maxAttempts, h0, h1, h2, countCalls]
  refine ⟨hcount, ?_, ?_, ?_, ?_⟩
  · intro s h0
    simp [retry, retryAux, maxAttempts, h0]
  · intro e0 s h0 h1
    simp [retry, retryAux, maxAttempts, h0, h1]
  · intro e0 e1 s h0 h1 h2
    simp [retry, retryAux, maxAttempts, h0, h1, h2]
  · intro e0 e1 e2 h0 h1 h2
    have hret : retry gen = ([Ev.callAttempt 1, Ev.sleepMs 1000, Ev.callAttempt 2,
        Ev.sleepMs 1000, Ev.callAttempt 3], none) := by
      simp [retry, retryAux, maxAttempts, h0, h1, h2]
    refine ⟨hret, ?_⟩
    intro course parseJSON
    simp [test, hret]

/-- Witness for C2 at the fail-twice-then-succeed and always-fail
oracles. -/
theorem c2_retry_bound_witness :
    retry gen2fail = ([Ev.callAttempt 1, Ev.sleepMs 1000, Ev.callAttempt 2,
      Ev.sleepMs 1000, Ev.callAttempt 3], some (stripOutput "out")) ∧
    retry genAllFail = ([Ev.callAttempt 1, Ev.sleepMs 1000, Ev.callAttempt 2,
      Ev.sleepMs 1000, Ev.callAttempt 3], none) ∧
    test (some course0) genAllFail parseNone = (some course0, false) := by
  obtain ⟨-, -, -, h3, h4⟩ := c2_retry_bound gen2fail
  obtain ⟨-, -, -, -, h4'⟩ := c2_retry_bound genAllFail
  obtain ⟨ha, hb⟩ := h4' "down" "down" "down" rfl rfl rfl
  exact ⟨h3 "network" "network" "out" rfl rfl rfl, ha, hb course0 parseNone⟩

/-- C3: reconciliation pairs database and AI modules/lessons positionally
by index; a position the AI output lacks receives the empty default of
lines 153/157, is processed without error, and leaves the database
lesson rows untouched (in particular unenriched). -/
theorem c3_positional_matching :
    (∀ (mods : List Module) (i : Nat) (ec : Json),
      (runModules mods i ec).1.length = mods.length) ∧
    (∀ (mods : List Module) (i : Nat) (ec : Json),
      (runModules mods i ec).2 = true →
      ∀ k, (runModules mods i ec).1[k]? =
        (mods[k]?).map (fun md : Module =>
          { md with lessons := (runLessons md.lessons 0 (enrichedModuleAt ec (i + k))).1 })) ∧
    (∀ (ls : List Lesson) (j : Nat) (em : Json),
      (runLessons ls j em).2 = true →
      ∀ k, (runLessons ls j em).1[k]? =
        (ls[k]?).bind (fun l => (processLesson l (enrichedLessonAt em (j + k))).toOption)) ∧
    (∀ (ec : Json) (ms : List Json) (idx : Nat),
      getField ec "modules" = some (Json.arr ms) → ms.length ≤ idx →
      enrichedModuleAt ec idx = Json.obj [("lessons", Json.arr [])]) ∧
    (∀ (em : Json) (ls : List Json) (j : Nat),
      getField em "lessons" = some (Json.arr ls) → ls.length ≤ j →
      enrichedLessonAt em j = Json.obj [("content", Json.arr [])]) ∧
    (∀ (ls : List Lesson) (j : Nat),
      runLessons ls j (Json.obj [("lessons", Json.arr [])]) = (ls, true)) ∧
    (∀ (l : Lesson), processLesson l (Json.obj [("content", Json.arr [])]) = Except.ok l) :=
  ⟨runModules_length, runModules_ok_getElem, runLessons_ok_getElem,
    fun _ _ _ h1 h2 => enrichedModuleAt_missing h1 h2,
    fun _ _ _ h1 h2 => enrichedLessonAt_missing h1 h2,
    runLessons_emptyModule, processLesson_empty⟩

/-- Witness for C3: the AI output `p0` has no module at index 5, the
default empty module leaves the sample lesson untouched, and the sample
single module of the sample course is paired with AI module index 0. -/
theorem c3_positional_matching_witness :
    enrichedModuleAt p0 5 = Json.obj [("lessons", Json.arr [])] ∧
    runLessons [lesson0] 0 (Json.obj [("lessons", Json.arr [])]) = ([lesson0], true) ∧
    (runModules course0.modules 0 p0).1[0]? =
      (course0.modules[0]?).map (fun md : Module =>
        { md with lessons := (runLessons md.lessons 0 (enrichedModuleAt p0 (0 + 0))).1 }) := by
  obtain ⟨hlen, hmod, hles, hmm, hlm, hempty, hpe⟩ := c3_positional_matching
  exact ⟨hmm p0 [] 5 rfl (by decide), hempty [lesson0] 0, hmod course0.modules 0 p0 rfl 0⟩

end AICourse
